import Mathlib

/-!
Shallow embedding of the Terminal Racer game (`src/main.cpp`) and proofs of
the specification's claims about it.  Coordinates are C++ `int`, modelled as
`Int`; the score is `long long`, also modelled as `Int`.  The C `rand()`
values consumed by the spawn policy are passed in explicitly as `Nat`s.
-/

namespace CarGame

/-- `TRACK_WIDTH` from main.cpp line 29. -/
def TRACK_WIDTH : Int := 20

/-- `SCREEN_HEIGHT` from main.cpp line 30. -/
def SCREEN_HEIGHT : Int := 20

/-- `START_PLAYER_X = TRACK_WIDTH / 2 + 1` from main.cpp line 31. -/
def START_PLAYER_X : Int := TRACK_WIDTH / 2 + 1

/-- `struct Car { int x; int y; }` from main.cpp line 43. -/
structure Car where
  x : Int
  y : Int
deriving DecidableEq

/-- The mutable globals of a run: `obstacles`, `playerX`, `score`, `gameOver`
(main.cpp lines 45-48). -/
structure GameState where
  obstacles : List Car
  playerX : Int
  score : Int
  gameOver : Bool

/-- The fresh session state set up at the top of `gameLoop`
(main.cpp lines 417-420). -/
def initialState : GameState :=
  { obstacles := [], playerX := START_PLAYER_X, score := 0, gameOver := false }

/-- The advance part of `updateObstacles` (main.cpp line 262):
`for (auto &obs : obstacles) obs.y++;`. -/
def advanceCars (l : List Car) : List Car :=
  l.map (fun c => { c with y := c.y + 1 })

/-- The retire part of `updateObstacles` (main.cpp lines 263-266): if the
front obstacle's row exceeds `SCREEN_HEIGHT`, erase it; the second component
counts the obstacles cleared (0 or 1), each worth `+10` score. -/
def retireFront (l : List Car) : List Car × Nat :=
  match l with
  | [] => ([], 0)
  | c :: rest => if c.y > SCREEN_HEIGHT then (rest, 1) else (c :: rest, 0)

/-- `obstacles.back().y` (0 when empty; the C++ code only reads it on a
non-empty vector). -/
def backY (l : List Car) : Int :=
  match l.getLast? with
  | some c => c.y
  | none => 0

/-- The column of a newly spawned obstacle: `(rand() % TRACK_WIDTH) + 2`
(main.cpp line 270), with `r2` the `rand()` value. -/
def spawnColumn (r2 : Nat) : Int := ((r2 % 20 : Nat) : Int) + 2

/-- The spawn part of `updateObstacles` (main.cpp lines 267-272): spawn iff
`(rand() % 10 < 3 && obstacles.empty()) || (!obstacles.empty() && obstacles.back().y > 2)`;
the new obstacle `{newX, 1}` is pushed at the back.  `r1` is the `rand()`
value of the probability draw, `r2` the one for the column. -/
def spawnStep (r1 r2 : Nat) (l : List Car) : List Car :=
  let shouldSpawn := (decide (r1 % 10 < 3) && l.isEmpty) ||
                     (!l.isEmpty && decide (backY l > 2))
  if shouldSpawn then l ++ [⟨spawnColumn r2, 1⟩] else l

/-- The obstacle-field effect of one `updateObstacles` call
(main.cpp lines 261-273): advance, retire the front if past the bottom,
then maybe spawn. -/
def tickObstacles (r1 r2 : Nat) (l : List Car) : List Car :=
  spawnStep r1 r2 (retireFront (advanceCars l)).1

/-- `updateObstacles` (main.cpp lines 261-273) as a state transformer:
the field is advanced/retired/spawned and the score gains 10 per cleared
obstacle. -/
def updateObstacles (r1 r2 : Nat) (s : GameState) : GameState :=
  { s with
    obstacles := tickObstacles r1 r2 s.obstacles,
    score := s.score + 10 * ((retireFront (advanceCars s.obstacles)).2 : Int) }

/-- The collision predicate inside `checkCollision` (main.cpp lines 275-276):
some obstacle has `y == SCREEN_HEIGHT && x == playerX`. -/
def collides (playerX : Int) (l : List Car) : Bool :=
  l.any (fun c => decide (c.y = SCREEN_HEIGHT) && decide (c.x = playerX))

/-- `checkCollision` (main.cpp lines 274-281): sets `gameOver = true` when an
obstacle sits on the bottom row at the player's column; it writes nothing
else.  Setting the flag on the first hit and breaking is equivalent to
or-ing the predicate in. -/
def checkCollision (s : GameState) : GameState :=
  { s with gameOver := s.gameOver || collides s.playerX s.obstacles }

/-- Left move (main.cpp line 435): `if (playerX > 2) playerX--;`. -/
def moveLeft (x : Int) : Int := if x > 2 then x - 1 else x

/-- Right move (main.cpp line 437): `if (playerX < TRACK_WIDTH + 1) playerX++;`. -/
def moveRight (x : Int) : Int := if x < TRACK_WIDTH + 1 then x + 1 else x

/-- The input-handling block of `gameLoop` (main.cpp lines 433-441): a
non-empty input is compared with the left binding, then the right binding,
then the quit tokens `"q"`, `"Q"`, `"\x03"`. -/
def handleInput (lk rk inp : String) (s : GameState) : GameState :=
  if inp.isEmpty then s
  else if inp = lk then { s with playerX := moveLeft s.playerX }
  else if inp = rk then { s with playerX := moveRight s.playerX }
  else if inp = "q" ∨ inp = "Q" ∨ inp = "\x03" then { s with gameOver := true }
  else s

/-- One iteration of the `while (!gameOver)` loop body (main.cpp
lines 431-453): handle input, then, when the tick interval has elapsed
(`tickDue`), run `updateObstacles` and `checkCollision`; `draw()` mutates no
game state and is omitted.  Note the iteration runs to its end even when the
input set `gameOver`. -/
def loopIter (lk rk inp : String) (tickDue : Bool) (r1 r2 : Nat)
    (s : GameState) : GameState :=
  let s1 := handleInput lk rk inp s
  if tickDue then checkCollision (updateObstacles r1 r2 s1) else s1

/-- The inputs one loop iteration consumes: the decoded key sequence,
whether the tick timer fired, and the two `rand()` values a tick would use. -/
structure IterInput where
  inp : String
  tickDue : Bool
  r1 : Nat
  r2 : Nat

/-- A run: fold loop iterations over a list of per-iteration inputs. -/
def runIters (lk rk : String) (steps : List IterInput) (s : GameState) :
    GameState :=
  steps.foldl (fun st p => loopIter lk rk p.inp p.tickDue p.r1 p.r2 st) s

/-- Iterated obstacle ticks from a field state, one `(r1, r2)` pair per
tick. -/
def runTicks (rands : List (Nat × Nat)) (l : List Car) : List Car :=
  rands.foldl (fun acc p => tickObstacles p.1 p.2 acc) l

/-- Spacing invariant of the obstacle field: from front (oldest) to back
(newest), each consecutive pair of obstacles differs by at least 2 rows,
front row largest.  This implies the rows are strictly decreasing
front-to-back. -/
def chain2 : List Car → Bool
  | [] => true
  | [_] => true
  | a :: b :: rest => decide (b.y + 2 ≤ a.y) && chain2 (b :: rest)

/-- All rows of the field lie within the visible track, `1 .. SCREEN_HEIGHT`. -/
def rowsInRange (l : List Car) : Bool :=
  l.all (fun c => decide (1 ≤ c.y) && decide (c.y ≤ SCREEN_HEIGHT))

/-- The between-ticks obstacle-field invariant: spaced by at least 2 rows
and within the track. -/
def fieldInv (l : List Car) : Bool := chain2 l && rowsInRange l

/-- The high-score storage: the file contents (`none` when the file is
missing) together with the in-memory `highestScore` global
(main.cpp lines 32, 51). -/
structure Persist where
  file : Option Int
  highestScore : Int

/-- `loadHighestScore` (main.cpp lines 242-248): if the file opens, read the
stored integer into `highestScore`; otherwise leave it alone. -/
def loadHighestScore (p : Persist) : Persist :=
  match p.file with
  | some v => { p with highestScore := v }
  | none => p

/-- `saveHighestScore` (main.cpp lines 249-258): only when
`score > highestScore` does it update the global and rewrite the file;
otherwise nothing is touched. -/
def saveHighestScore (score : Int) (p : Persist) : Persist :=
  if score > p.highestScore then { file := some score, highestScore := score }
  else p

/-- The escape-sequence wait loop of `getInputSequence` (main.cpp
lines 199-212): `while (waited < 100)` poll `FIONREAD`; if bytes are
available read at most 9 of them and break, else sleep 8 ms and
`waited += 8`.  `avail i` is the byte queue the `i`-th poll sees; the result
is the number of polls executed paired with the bytes appended.  The `fuel`
argument only caps the recursion depth; since `waited` grows by 8 toward
the loop bound 100, any `fuel` with `100 ≤ waited + 8 * fuel` gives the
loop's true behaviour (`escWaitGo_fuel_ext`), and the top-level call uses
`fuel = 13`. -/
def escWaitGo (avail : Nat → List Char) : Nat → Nat → Nat → Nat × List Char
  | 0, i, _ => (i, [])
  | fuel + 1, i, waited =>
    if waited < 100 then
      if (avail i).length > 0 then (i + 1, (avail i).take 9)
      else escWaitGo avail fuel (i + 1) (waited + 8)
    else (i, [])

/-- `getInputSequence` on the branch where the first byte read is `'\x1b'`
(main.cpp lines 196-214): the escape byte followed by whatever the wait loop
appended, paired with the number of polls. -/
def getInputSequenceEsc (avail : Nat → List Char) : Nat × List Char :=
  ((escWaitGo avail 13 0 0).1, '\x1b' :: (escWaitGo avail 13 0 0).2)

/-- C `isprint` in the C locale (main.cpp line 229): the printable ASCII
range `0x20 .. 0x7E`. -/
def isPrintable (c : Char) : Bool := 0x20 ≤ c.toNat && c.toNat ≤ 0x7E

/-- One uppercase hex digit. -/
def hexDigitChar (n : Nat) : Char :=
  if n < 10 then Char.ofNat (48 + n) else Char.ofNat (55 + n)

/-- Digit-extraction loop for `toHexUpper`; the fuel argument only bounds
the recursion depth and never runs out when it starts at `n` itself, since
each step divides `n` by 16. -/
def toHexUpperAux : Nat → Nat → List Char
  | 0, n => [hexDigitChar n]
  | fuel + 1, n =>
    if n < 16 then [hexDigitChar n]
    else toHexUpperAux fuel (n / 16) ++ [hexDigitChar (n % 16)]

/-- Minimal-width uppercase hex of a byte value, as
`oss << std::hex << std::uppercase << (int)ch` prints it
(main.cpp line 235). -/
def toHexUpper (n : Nat) : List Char := toHexUpperAux n n

/-- `keyToDisplay` (main.cpp lines 220-239) over the key's byte list. -/
def keyToDisplay (k : List Char) : String :=
  if k = [] then "NONE"
  else if k = ['\x1b', '[', 'A'] then "UP_ARROW"
  else if k = ['\x1b', '[', 'B'] then "DOWN_ARROW"
  else if k = ['\x1b', '[', 'C'] then "RIGHT_ARROW"
  else if k = ['\x1b', '[', 'D'] then "LEFT_ARROW"
  else if k = ['\n'] ∨ k = ['\r'] then "ENTER"
  else if k = [' '] then "SPACE"
  else if k = ['\t'] then "TAB"
  else if k.length = 1 ∧ isPrintable (k.headD ' ') = true then String.mk k
  else "SEQ(" ++ String.join (k.map
        (fun c => "0x" ++ String.mk (toHexUpper c.toNat) ++ " ")) ++ ")"

/-- C1: `checkCollision`, called on a state whose game-over flag is still
clear (as it is immediately after `advance()` inside a live iteration),
sets the flag iff some obstacle sits at row `SCREEN_HEIGHT` in the
player's column, and it leaves the player position, the score and the
obstacle field untouched. -/
theorem checkCollision_spec (s : GameState) (h : s.gameOver = false) :
    ((checkCollision s).gameOver = true ↔
      ∃ c ∈ s.obstacles, c.y = SCREEN_HEIGHT ∧ c.x = s.playerX) ∧
    (checkCollision s).playerX = s.playerX ∧
    (checkCollision s).score = s.score ∧
    (checkCollision s).obstacles = s.obstacles := by
  refine ⟨?_, rfl, rfl, rfl⟩
  simp [checkCollision, collides, h, List.any_eq_true]

/-- C1 witness: a state with an obstacle at the bottom row in the player's
column. -/
theorem checkCollision_spec_witness :
    (checkCollision (GameState.mk [⟨11, 20⟩] 11 0 false)).gameOver = true :=
  ((checkCollision_spec (GameState.mk [⟨11, 20⟩] 11 0 false) rfl).1).2
    ⟨⟨11, 20⟩, by simp, by decide, by decide⟩

/-- C2: the advance/retire part of `updateObstacles` increments every
obstacle's row by exactly 1 (columns and order untouched), removes at most
one obstacle, and the only obstacle it can remove is the front (oldest)
one, removed exactly when its incremented row exceeds `SCREEN_HEIGHT`. -/
theorem advance_retire_spec (l : List Car) :
    ((advanceCars l).length = l.length ∧
      ∀ i, (h : i < l.length) →
        (advanceCars l).get ⟨i, by simpa [advanceCars] using h⟩ =
          ⟨(l.get ⟨i, h⟩).x, (l.get ⟨i, h⟩).y + 1⟩) ∧
    ((retireFront (advanceCars l)).1.length ≤ l.length ∧
      l.length ≤ (retireFront (advanceCars l)).1.length + 1) ∧
    retireFront (advanceCars ([] : List Car)) = ([], 0) ∧
    (∀ c rest, l = c :: rest →
      retireFront (advanceCars l) =
        if c.y + 1 > SCREEN_HEIGHT then (advanceCars rest, 1)
        else (advanceCars l, 0)) := by
  refine ⟨⟨by simp [advanceCars], ?_⟩, ?_, by simp [advanceCars, retireFront], ?_⟩
  · intro i h
    simp [advanceCars]
  · cases l with
    | nil => simp [advanceCars, retireFront]
    | cons c rest =>
      simp only [advanceCars, List.map_cons, retireFront]
      split <;> simp
  · intro c rest hl
    subst hl
    by_cases hgt : c.y + 1 > SCREEN_HEIGHT
    · rw [if_pos hgt]
      simp [advanceCars, retireFront, hgt]
    · rw [if_neg hgt]
      simp [advanceCars, retireFront, hgt]

/-- C2 witness: a single obstacle on the bottom row is advanced past it and
retired. -/
theorem advance_retire_spec_witness :
    retireFront (advanceCars [⟨3, 20⟩]) = ([], 1) := by
  have h := (advance_retire_spec [⟨3, 20⟩]).2.2.2 ⟨3, 20⟩ [] rfl
  simpa [advanceCars] using h

theorem moveLeft_bounds (x : Int) (hlo : 2 ≤ x) (hhi : x ≤ TRACK_WIDTH + 1) :
    2 ≤ moveLeft x ∧ moveLeft x ≤ TRACK_WIDTH + 1 := by
  simp only [moveLeft, TRACK_WIDTH] at *
  split_ifs <;> omega

theorem moveRight_bounds (x : Int) (hlo : 2 ≤ x) (hhi : x ≤ TRACK_WIDTH + 1) :
    2 ≤ moveRight x ∧ moveRight x ≤ TRACK_WIDTH + 1 := by
  simp only [moveRight, TRACK_WIDTH] at *
  split_ifs <;> omega

theorem handleInput_playerX_bounds (lk rk inp : String) (s : GameState)
    (hlo : 2 ≤ s.playerX) (hhi : s.playerX ≤ TRACK_WIDTH + 1) :
    2 ≤ (handleInput lk rk inp s).playerX ∧
      (handleInput lk rk inp s).playerX ≤ TRACK_WIDTH + 1 := by
  unfold handleInput
  split_ifs
  · exact ⟨hlo, hhi⟩
  · exact moveLeft_bounds s.playerX hlo hhi
  · exact moveRight_bounds s.playerX hlo hhi
  · exact ⟨hlo, hhi⟩
  · exact ⟨hlo, hhi⟩

theorem loopIter_playerX (lk rk inp : String) (tick : Bool) (r1 r2 : Nat)
    (s : GameState) :
    (loopIter lk rk inp tick r1 r2 s).playerX =
      (handleInput lk rk inp s).playerX := by
  unfold loopIter
  split <;> rfl

theorem loopIter_playerX_bounds (lk rk inp : String) (tick : Bool)
    (r1 r2 : Nat) (s : GameState)
    (hlo : 2 ≤ s.playerX) (hhi : s.playerX ≤ TRACK_WIDTH + 1) :
    2 ≤ (loopIter lk rk inp tick r1 r2 s).playerX ∧
      (loopIter lk rk inp tick r1 r2 s).playerX ≤ TRACK_WIDTH + 1 := by
  rw [loopIter_playerX]
  exact handleInput_playerX_bounds lk rk inp s hlo hhi

theorem runIters_playerX_bounds (lk rk : String) (steps : List IterInput)
    (s : GameState)
    (hlo : 2 ≤ s.playerX) (hhi : s.playerX ≤ TRACK_WIDTH + 1) :
    2 ≤ (runIters lk rk steps s).playerX ∧
      (runIters lk rk steps s).playerX ≤ TRACK_WIDTH + 1 := by
  induction steps generalizing s with
  | nil => exact ⟨hlo, hhi⟩
  | cons p ps ih =>
    have hstep := loopIter_playerX_bounds lk rk p.inp p.tickDue p.r1 p.r2 s hlo hhi
    simpa [runIters, List.foldl_cons] using ih _ hstep.1 hstep.2

/-- C3: in any run from the fresh session, whatever the bindings and the
iteration inputs, the player's column stays within `[2, TRACK_WIDTH + 1]`;
a left move at column 2 and a right move at column `TRACK_WIDTH + 1` are
no-ops, and every other left/right move changes the column by exactly one. -/
theorem player_column_clamped (lk rk : String) (steps : List IterInput) :
    (2 ≤ (runIters lk rk steps initialState).playerX ∧
      (runIters lk rk steps initialState).playerX ≤ TRACK_WIDTH + 1) ∧
    moveLeft 2 = 2 ∧ moveRight (TRACK_WIDTH + 1) = TRACK_WIDTH + 1 ∧
    (∀ x : Int, 2 < x → moveLeft x = x - 1) ∧
    (∀ x : Int, x < TRACK_WIDTH + 1 → moveRight x = x + 1) := by
  refine ⟨runIters_playerX_bounds lk rk steps initialState (by decide) (by decide),
    by decide, by decide, ?_, ?_⟩
  · intro x hx
    simp [moveLeft, hx]
  · intro x hx
    simp [moveRight, hx]

/-- C3 witness: the empty run stays in bounds and a left move from the
start column moves one step. -/
theorem player_column_clamped_witness :
    2 ≤ (runIters "a" "d" [] initialState).playerX ∧
      moveLeft START_PLAYER_X = START_PLAYER_X - 1 :=
  ⟨(player_column_clamped "a" "d" []).1.1,
    (player_column_clamped "a" "d" []).2.2.2.1 START_PLAYER_X (by decide)⟩

theorem handleInput_score (lk rk inp : String) (s : GameState) :
    (handleInput lk rk inp s).score = s.score := by
  unfold handleInput
  split_ifs <;> rfl

theorem retireFront_snd_le_one (l : List Car) : (retireFront l).2 ≤ 1 := by
  cases l with
  | nil => simp [retireFront]
  | cons c rest =>
    simp only [retireFront]
    split <;> simp

/-- C4: the score starts at 0, each tick adds exactly 10 per cleared
obstacle (at most one), and neither input handling nor the collision check
changes the score; hence one loop iteration never decreases it. -/
theorem score_spec :
    initialState.score = 0 ∧
    (∀ r1 r2 : Nat, ∀ s : GameState,
      (updateObstacles r1 r2 s).score =
          s.score + 10 * ((retireFront (advanceCars s.obstacles)).2 : Int) ∧
        (retireFront (advanceCars s.obstacles)).2 ≤ 1 ∧
        s.score ≤ (updateObstacles r1 r2 s).score) ∧
    (∀ lk rk inp : String, ∀ s : GameState,
      (handleInput lk rk inp s).score = s.score) ∧
    (∀ s : GameState, (checkCollision s).score = s.score) ∧
    (∀ lk rk inp : String, ∀ tick : Bool, ∀ r1 r2 : Nat, ∀ s : GameState,
      s.score ≤ (loopIter lk rk inp tick r1 r2 s).score) := by
  refine ⟨rfl, fun r1 r2 s => ⟨rfl, retireFront_snd_le_one _, ?_⟩,
    fun lk rk inp s => handleInput_score lk rk inp s, fun s => rfl, ?_⟩
  · have hn : (0 : Int) ≤ ((retireFront (advanceCars s.obstacles)).2 : Int) :=
      Int.natCast_nonneg _
    show s.score ≤ s.score + 10 * ((retireFront (advanceCars s.obstacles)).2 : Int)
    omega
  · intro lk rk inp tick r1 r2 s
    have hh := handleInput_score lk rk inp s
    have hs : (checkCollision (updateObstacles r1 r2 (handleInput lk rk inp s))).score =
        (handleInput lk rk inp s).score +
          10 * ((retireFront (advanceCars (handleInput lk rk inp s).obstacles)).2 : Int) :=
      rfl
    cases tick
    · simp [loopIter, hh]
    · have ht : (loopIter lk rk inp true r1 r2 s).score =
          s.score +
            10 * ((retireFront (advanceCars (handleInput lk rk inp s).obstacles)).2 : Int) := by
        simp [loopIter, hs, hh]
      rw [ht]
      have hn : (0 : Int) ≤
          ((retireFront (advanceCars (handleInput lk rk inp s).obstacles)).2 : Int) :=
        Int.natCast_nonneg _
      omega

/-- C5 counterexample: with a pending tick, an iteration that decodes the
quit key `"q"` still advances and spawns obstacles — the remaining steps of
the iteration are not skipped, only the next iteration is prevented. -/
theorem quit_does_not_skip_iteration :
    (loopIter "a" "d" "q" true 5 3 ⟨[⟨5, 5⟩], 11, 0, false⟩).gameOver = true ∧
    (loopIter "a" "d" "q" true 5 3 ⟨[⟨5, 5⟩], 11, 0, false⟩).obstacles ≠
      [⟨5, 5⟩] := by
  decide

/-- C5 amended: decoding a quit token (one that matches neither binding)
sets the game-over flag immediately, but the rest of the iteration still
executes: if the tick was due, the obstacle field is still advanced/spawned
and the score still updated; the loop only stops at its next condition
check. -/
theorem quit_transitions_over_but_iteration_completes (lk rk inp : String)
    (tick : Bool) (r1 r2 : Nat) (s : GameState)
    (hl : inp ≠ lk) (hr : inp ≠ rk)
    (hq : inp = "q" ∨ inp = "Q" ∨ inp = "\x03") :
    (loopIter lk rk inp tick r1 r2 s).gameOver = true ∧
    (loopIter lk rk inp tick r1 r2 s).obstacles =
      (if tick then tickObstacles r1 r2 s.obstacles else s.obstacles) ∧
    (loopIter lk rk inp tick r1 r2 s).score =
      (if tick then
        s.score + 10 * ((retireFront (advanceCars s.obstacles)).2 : Int)
       else s.score) := by
  have hh : handleInput lk rk inp s = { s with gameOver := true } := by
    have he : inp.isEmpty = false := by
      rcases hq with h | h | h <;> subst h <;> decide
    simp [handleInput, hl, hr, he, hq]
  unfold loopIter
  rw [hh]
  cases tick
  · simp
  · simp [checkCollision, updateObstacles]

/-- C5 amended witness: quitting with no tick due still flags game over. -/
theorem quit_transitions_over_witness :
    (loopIter "a" "d" "q" false 0 0 initialState).gameOver = true :=
  (quit_transitions_over_but_iteration_completes "a" "d" "q" false 0 0
    initialState (by decide) (by decide) (Or.inl rfl)).1

/-- C6: the spawn step fires exactly when the field is empty and the 30%
draw (`rand() % 10 < 3`) hits, or the field is non-empty and the newest
(back) obstacle's row exceeds 2; the new obstacle is appended at the back
with row 1 and a column in `[2, TRACK_WIDTH + 1]`, and every interior
column is reachable from some `rand()` value. -/
theorem spawn_spec (r1 r2 : Nat) (l : List Car) :
    (spawnStep r1 r2 l =
      if (r1 % 10 < 3 ∧ l = []) ∨ (l ≠ [] ∧ 2 < backY l)
      then l ++ [⟨spawnColumn r2, 1⟩] else l) ∧
    (2 ≤ spawnColumn r2 ∧ spawnColumn r2 ≤ TRACK_WIDTH + 1) ∧
    (∀ c : Int, 2 ≤ c → c ≤ TRACK_WIDTH + 1 → ∃ r : Nat, spawnColumn r = c) := by
  refine ⟨?_, ⟨?_, ?_⟩, ?_⟩
  · by_cases h1 : l = []
    · subst h1
      by_cases h2 : r1 % 10 < 3 <;> simp [spawnStep, h2]
    · have he : l.isEmpty = false := by simpa [List.isEmpty_iff] using h1
      by_cases h2 : 2 < backY l <;> simp [spawnStep, he, h1, h2]
  · exact le_add_of_nonneg_left (Int.natCast_nonneg _)
  · have hm : r2 % 20 ≤ 19 := Nat.le_of_lt_succ (Nat.mod_lt _ (by decide))
    have hc : ((r2 % 20 : Nat) : Int) ≤ ((19 : Nat) : Int) := Int.ofNat_le.mpr hm
    calc ((r2 % 20 : Nat) : Int) + 2 ≤ ((19 : Nat) : Int) + 2 :=
          add_le_add_right hc 2
      _ = TRACK_WIDTH + 1 := by decide
  · intro c hc1 hc2
    refine ⟨(c - 2).toNat, ?_⟩
    simp only [TRACK_WIDTH] at hc2
    have h0 : (0 : Int) ≤ c - 2 := by omega
    have h1 : ((c - 2).toNat : Int) = c - 2 := Int.toNat_of_nonneg h0
    have h2 : (c - 2).toNat < 20 := by
      have hlt : ((c - 2).toNat : Int) < ((20 : Nat) : Int) := by
        rw [h1]
        omega
      exact Int.ofNat_lt.mp hlt
    show ((((c - 2).toNat % 20 : Nat)) : Int) + 2 = c
    rw [Nat.mod_eq_of_lt h2, h1]
    omega

/-- C6 witness: the rightmost interior column `TRACK_WIDTH + 1 = 21` is
reachable by the spawn draw. -/
theorem spawn_spec_witness : ∃ r : Nat, spawnColumn r = 21 :=
  (spawn_spec 1 3 []).2.2 21 (by decide) (by decide)

/-- C7: with stored high score `h`, saving a final score `s ≤ h` changes
nothing (neither the file nor the in-memory value), saving `s > h` rewrites
the file to `s`, and a load immediately after such a save reads back `s`. -/
theorem highscore_persistence (s h : Int) (p : Persist)
    (hmem : p.highestScore = h) :
    (s ≤ h → saveHighestScore s p = p) ∧
    (h < s →
      (saveHighestScore s p).file = some s ∧
      (saveHighestScore s p).highestScore = s ∧
      (loadHighestScore (saveHighestScore s p)).highestScore = s) := by
  subst hmem
  constructor
  · intro hle
    simp [saveHighestScore, not_lt.mpr hle]
  · intro hlt
    simp [saveHighestScore, hlt, loadHighestScore]

/-- C7 witness: saving 3 over a stored 3 is a no-op; saving 5 over 3 then
loading yields 5. -/
theorem highscore_persistence_witness :
    saveHighestScore 3 ⟨some 3, 3⟩ = ⟨some 3, 3⟩ ∧
    (loadHighestScore (saveHighestScore 5 ⟨some 3, 3⟩)).highestScore = 5 :=
  ⟨(highscore_persistence 3 3 ⟨some 3, 3⟩ rfl).1 (by decide),
   ((highscore_persistence 5 3 ⟨some 3, 3⟩ rfl).2 (by decide)).2.2⟩

theorem escWaitGo_polls_le (avail : Nat → List Char) :
    ∀ fuel i waited, (escWaitGo avail fuel i waited).1 ≤ i + fuel := by
  intro fuel
  induction fuel with
  | zero =>
    intro i waited
    simp [escWaitGo]
  | succ f ih =>
    intro i waited
    simp only [escWaitGo]
    split_ifs with hw ha
    · show i + 1 ≤ i + (f + 1)
      omega
    · have h2 := ih (i + 1) (waited + 8)
      omega
    · show i ≤ i + (f + 1)
      omega

theorem escWaitGo_fuel_ext (avail : Nat → List Char) :
    ∀ f g i waited, 100 ≤ waited + 8 * f → 100 ≤ waited + 8 * g →
      escWaitGo avail f i waited = escWaitGo avail g i waited := by
  intro f
  induction f with
  | zero =>
    intro g i waited hf hg
    have hw : ¬ waited < 100 := by omega
    cases g with
    | zero => rfl
    | succ g =>
      show (i, []) =
        if waited < 100 then
          if (avail i).length > 0 then (i + 1, (avail i).take 9)
          else escWaitGo avail g (i + 1) (waited + 8)
        else (i, [])
      rw [if_neg hw]
  | succ f ih =>
    intro g i waited hf hg
    cases g with
    | zero =>
      have hw : ¬ waited < 100 := by omega
      show (if waited < 100 then
          if (avail i).length > 0 then (i + 1, (avail i).take 9)
          else escWaitGo avail f (i + 1) (waited + 8)
        else (i, [])) = (i, [])
      rw [if_neg hw]
    | succ g =>
      show (if waited < 100 then
          if (avail i).length > 0 then (i + 1, (avail i).take 9)
          else escWaitGo avail f (i + 1) (waited + 8)
        else (i, [])) =
        (if waited < 100 then
          if (avail i).length > 0 then (i + 1, (avail i).take 9)
          else escWaitGo avail g (i + 1) (waited + 8)
        else (i, []))
      by_cases hw : waited < 100
      · rw [if_pos hw, if_pos hw]
        by_cases ha : (avail i).length > 0
        · rw [if_pos ha, if_pos ha]
        · rw [if_neg ha, if_neg ha]
          exact ih g (i + 1) (waited + 8) (by omega) (by omega)
      · rw [if_neg hw, if_neg hw]

theorem escWaitGo_all_empty (avail : Nat → List Char)
    (h : ∀ j, avail j = []) :
    ∀ fuel i waited, waited + 8 * fuel ≤ 107 →
      escWaitGo avail fuel i waited = (i + fuel, []) := by
  intro fuel
  induction fuel with
  | zero =>
    intro i waited _
    simp [escWaitGo]
  | succ f ih =>
    intro i waited hw
    have hlt : waited < 100 := by omega
    simp only [escWaitGo]
    rw [if_pos hlt, h i, if_neg (by simp)]
    rw [ih (i + 1) (waited + 8) (by omega)]
    congr 1
    omega

/-- C8: the wait loop's fuel bound is immaterial (any fuel covering the
13 needed steps gives the same result), the loop polls at most
`⌈100 / 8⌉ = 13` times; when no follow-up byte ever arrives, it runs
exactly those 13 polls, the read returns the lone escape byte, and
`keyToDisplay` renders it as the unrecognized-sequence diagnostic
`SEQ(0x1B )` — the read never blocks indefinitely. -/
theorem esc_wait_bounded (avail : Nat → List Char) :
    (∀ fuel, 13 ≤ fuel →
      escWaitGo avail fuel 0 0 = escWaitGo avail 13 0 0 ∧
      (escWaitGo avail fuel 0 0).1 ≤ 13) ∧
    ((∀ i, avail i = []) →
      getInputSequenceEsc avail = (13, ['\x1b']) ∧
      keyToDisplay ['\x1b'] = "SEQ(0x1B )") := by
  constructor
  · intro fuel hf
    have hx : escWaitGo avail fuel 0 0 = escWaitGo avail 13 0 0 :=
      escWaitGo_fuel_ext avail fuel 13 0 0 (by omega) (by omega)
    refine ⟨hx, ?_⟩
    rw [hx]
    simpa using escWaitGo_polls_le avail 13 0 0
  · intro h
    have hgo : escWaitGo avail 13 0 0 = (13, []) := by
      simpa using escWaitGo_all_empty avail h 13 0 0 (by omega)
    refine ⟨?_, by decide⟩
    simp [getInputSequenceEsc, hgo]

/-- C8 witness: the stream that never delivers a follow-up byte. -/
theorem esc_wait_bounded_witness :
    getInputSequenceEsc (fun _ => []) = (13, ['\x1b']) :=
  ((esc_wait_bounded (fun _ => [])).2 (fun _ => rfl)).1

/-- C10: the movement bindings are matched before the quit tokens: even
when the input is `"q"`, `"Q"` or the Ctrl-C byte, matching the left (or
right) binding moves the player and leaves the game-over flag alone; the
run ends via quit only when the input matches neither binding. -/
theorem binding_priority (lk rk inp : String) (s : GameState)
    (hq : inp = "q" ∨ inp = "Q" ∨ inp = "\x03") :
    (inp = lk →
      handleInput lk rk inp s = { s with playerX := moveLeft s.playerX }) ∧
    (inp ≠ lk → inp = rk →
      handleInput lk rk inp s = { s with playerX := moveRight s.playerX }) ∧
    (inp ≠ lk → inp ≠ rk →
      handleInput lk rk inp s = { s with gameOver := true }) := by
  have he : inp.isEmpty = false := by
    rcases hq with h | h | h <;> subst h <;> decide
  refine ⟨?_, ?_, ?_⟩
  · intro h1
    subst h1
    simp [handleInput, he]
  · intro h1 h2
    subst h2
    simp [handleInput, he, h1]
  · intro h1 h2
    simp [handleInput, he, h1, h2, hq]

/-- C10 witness: with the left binding set to `"q"`, pressing `"q"` moves
the player left instead of quitting. -/
theorem binding_priority_witness :
    handleInput "q" "d" "q" initialState =
      { initialState with playerX := moveLeft initialState.playerX } :=
  (binding_priority "q" "d" "q" initialState (Or.inl rfl)).1 rfl

theorem chain2_cons_cons (a b : Car) (t : List Car) :
    chain2 (a :: b :: t) = true ↔ b.y + 2 ≤ a.y ∧ chain2 (b :: t) = true := by
  simp [chain2]

theorem chain2_tail (a : Car) (rest : List Car) (h : chain2 (a :: rest) = true) :
    chain2 rest = true := by
  cases rest with
  | nil => rfl
  | cons b t => exact ((chain2_cons_cons a b t).1 h).2

theorem chain2_head_bound :
    ∀ (rest : List Car) (a : Car), chain2 (a :: rest) = true →
      ∀ b ∈ rest, b.y + 2 ≤ a.y := by
  intro rest
  induction rest with
  | nil =>
    intro a _ b hb
    simp at hb
  | cons c t ih =>
    intro a h b hb
    have h1 := (chain2_cons_cons a c t).1 h
    rcases List.mem_cons.mp hb with rfl | hb2
    · exact h1.1
    · have := ih c h1.2 b hb2
      omega

theorem chain2_advance (l : List Car) : chain2 (advanceCars l) = chain2 l := by
  induction l with
  | nil => rfl
  | cons a rest ih =>
    cases rest with
    | nil => rfl
    | cons b t =>
      have ih2 : chain2
          ({ b with y := b.y + 1 } ::
            List.map (fun c => { c with y := c.y + 1 }) t) = chain2 (b :: t) := ih
      simp only [advanceCars, List.map_cons] at ih2 ⊢
      simp only [chain2, ih2]
      congr 1
      exact decide_eq_decide.mpr (by constructor <;> (intro h; omega))

theorem chain2_append_back :
    ∀ (l : List Car) (n : Car), chain2 l = true →
      (∀ c, l.getLast? = some c → n.y + 2 ≤ c.y) →
      chain2 (l ++ [n]) = true := by
  intro l
  induction l with
  | nil =>
    intro n _ _
    rfl
  | cons a rest ih =>
    intro n h hlast
    cases rest with
    | nil =>
      have hn := hlast a (by simp)
      simpa [chain2] using hn
    | cons b t =>
      have h1 := (chain2_cons_cons a b t).1 h
      have hl : ∀ c, (b :: t).getLast? = some c → n.y + 2 ≤ c.y := by
        intro c hc
        exact hlast c (by simpa [List.getLast?_cons_cons] using hc)
      have h2 := ih n h1.2 hl
      exact (chain2_cons_cons a b (t ++ [n])).2 ⟨h1.1, h2⟩

theorem rowsInRange_iff (l : List Car) :
    rowsInRange l = true ↔ ∀ c ∈ l, 1 ≤ c.y ∧ c.y ≤ SCREEN_HEIGHT := by
  simp [rowsInRange, List.all_eq_true]

theorem retired_inv (l : List Car) (hc : chain2 l = true)
    (hr : rowsInRange l = true) :
    chain2 (retireFront (advanceCars l)).1 = true ∧
    ∀ c ∈ (retireFront (advanceCars l)).1, 2 ≤ c.y ∧ c.y ≤ SCREEN_HEIGHT := by
  have hmem := (rowsInRange_iff l).1 hr
  cases l with
  | nil =>
    refine ⟨rfl, ?_⟩
    intro c hcm
    simp [advanceCars, retireFront] at hcm
  | cons a rest =>
    have hhead := chain2_head_bound rest a hc
    have hrestBounds : ∀ c ∈ advanceCars rest,
        2 ≤ c.y ∧ c.y ≤ SCREEN_HEIGHT - 1 := by
      intro c hcm
      rcases List.mem_map.1 hcm with ⟨b, hbm, rfl⟩
      have h1 := hmem b (List.mem_cons_of_mem a hbm)
      have h2 := hhead b hbm
      have h3 := (hmem a (List.mem_cons_self a rest)).2
      simp only [SCREEN_HEIGHT] at *
      omega
    have hCadv : chain2 (advanceCars (a :: rest)) = true := by
      rw [chain2_advance]
      exact hc
    by_cases hgt : (SCREEN_HEIGHT : Int) < a.y + 1
    · have hre : retireFront (advanceCars (a :: rest)) = (advanceCars rest, 1) := by
        simp only [advanceCars, List.map_cons, retireFront]
        rw [if_pos hgt]
      rw [hre]
      refine ⟨?_, ?_⟩
      · rw [show (advanceCars rest, 1).1 = advanceCars rest from rfl, chain2_advance]
        exact chain2_tail a rest hc
      · intro c hcm
        have hcb := hrestBounds c hcm
        simp only [SCREEN_HEIGHT] at *
        omega
    · have hre : retireFront (advanceCars (a :: rest)) =
          (advanceCars (a :: rest), 0) := by
        simp only [advanceCars, List.map_cons, retireFront]
        rw [if_neg hgt]
      rw [hre]
      refine ⟨hCadv, ?_⟩
      intro c hcm
      rcases List.mem_cons.1
          (show c ∈ ({ a with y := a.y + 1 } : Car) :: advanceCars rest from hcm)
        with rfl | hcm2
      · have h1 := hmem a (List.mem_cons_self a rest)
        simp only [SCREEN_HEIGHT] at *
        omega
      · have hcb := hrestBounds c hcm2
        simp only [SCREEN_HEIGHT] at *
        omega

theorem spawn_inv (r1 r2 : Nat) (l : List Car) (hc : chain2 l = true)
    (hb : ∀ c ∈ l, 2 ≤ c.y ∧ c.y ≤ SCREEN_HEIGHT) :
    chain2 (spawnStep r1 r2 l) = true ∧
    ∀ c ∈ spawnStep r1 r2 l, 1 ≤ c.y ∧ c.y ≤ SCREEN_HEIGHT := by
  simp only [spawnStep]
  split_ifs with hs
  · rcases eq_or_ne l [] with rfl | hne
    · refine ⟨rfl, ?_⟩
      intro c hcm
      rcases List.mem_singleton.1 (by simpa using hcm) with rfl
      exact ⟨le_refl 1, by simp [SCREEN_HEIGHT]⟩
    · have hemp : l.isEmpty = false := by
        simpa [List.isEmpty_iff] using hne
      rw [hemp] at hs
      simp at hs
      refine ⟨?_, ?_⟩
      · apply chain2_append_back l _ hc
        intro c hcl
        have hby : backY l = c.y := by simp [backY, hcl]
        show (1 : Int) + 2 ≤ c.y
        omega
      · intro c hcm
        rcases List.mem_append.1 hcm with hcm2 | hcm2
        · have h1 := hb c hcm2
          exact ⟨by omega, h1.2⟩
        · rcases List.mem_singleton.1 hcm2 with rfl
          exact ⟨le_refl 1, by simp [SCREEN_HEIGHT]⟩
  · refine ⟨hc, ?_⟩
    intro c hcm
    have h1 := hb c hcm
    exact ⟨by omega, h1.2⟩

theorem fieldInv_tick (r1 r2 : Nat) (l : List Car) (h : fieldInv l = true) :
    fieldInv (tickObstacles r1 r2 l) = true := by
  have hcr : chain2 l = true ∧ rowsInRange l = true := by
    rw [fieldInv, Bool.and_eq_true] at h
    exact h
  have h1 := retired_inv l hcr.1 hcr.2
  have h2 := spawn_inv r1 r2 _ h1.1 h1.2
  unfold tickObstacles
  rw [fieldInv, Bool.and_eq_true]
  exact ⟨h2.1, (rowsInRange_iff _).2 h2.2⟩

theorem runTicks_inv (rands : List (Nat × Nat)) :
    ∀ l : List Car, fieldInv l = true → fieldInv (runTicks rands l) = true := by
  induction rands with
  | nil => exact fun l h => h
  | cons p ps ih =>
    intro l h
    exact ih _ (fieldInv_tick p.1 p.2 l h)

theorem advance_past_bottom_facts (l : List Car) (hc : chain2 l = true)
    (hr : rowsInRange l = true) :
    ((advanceCars l).filter (fun c => decide (SCREEN_HEIGHT < c.y))).length ≤ 1 ∧
    ∀ c ∈ (retireFront (advanceCars l)).1, c.y ≤ SCREEN_HEIGHT := by
  have hmem := (rowsInRange_iff l).1 hr
  cases l with
  | nil =>
    refine ⟨by simp [advanceCars], ?_⟩
    intro c hcm
    simp [advanceCars, retireFront] at hcm
  | cons a rest =>
    have hhead := chain2_head_bound rest a hc
    have hrest : ∀ c ∈ advanceCars rest, c.y ≤ SCREEN_HEIGHT - 1 := by
      intro c hcm
      rcases List.mem_map.1 hcm with ⟨b, hbm, rfl⟩
      have h2 := hhead b hbm
      have h3 := (hmem a (List.mem_cons_self a rest)).2
      simp only [SCREEN_HEIGHT] at *
      omega
    have hfilter : (advanceCars rest).filter
        (fun c => decide (SCREEN_HEIGHT < c.y)) = [] := by
      rw [List.filter_eq_nil_iff]
      intro c hcm
      have := hrest c hcm
      simp only [SCREEN_HEIGHT] at *
      simp
      omega
    constructor
    · show (List.filter _
          (({ a with y := a.y + 1 } : Car) :: advanceCars rest)).length ≤ 1
      rw [List.filter_cons]
      split_ifs
      · rw [hfilter]
        simp
      · rw [hfilter]
        simp
    · show ∀ c ∈ (retireFront
          (({ a with y := a.y + 1 } : Car) :: advanceCars rest)).1,
        c.y ≤ SCREEN_HEIGHT
      simp only [retireFront]
      split_ifs with hgt
      · intro c hcm
        have := hrest c hcm
        simp only [SCREEN_HEIGHT] at *
        omega
      · intro c hcm
        rcases List.mem_cons.1 hcm with rfl | hcm2
        · simp only [SCREEN_HEIGHT] at *
          omega
        · have := hrest c hcm2
          simp only [SCREEN_HEIGHT] at *
          omega

/-- C9: from the fresh (empty) field, any number of `updateObstacles`
ticks keeps the obstacle rows strictly decreasing from front to back with
consecutive gaps of at least 2 (`chain2`) and inside the track
(`rowsInRange`); hence after the advance step at most one obstacle is past
the bottom boundary, and after the front-only removal step no obstacle has
a row above it. -/
theorem reachable_field_spacing (rands : List (Nat × Nat)) :
    chain2 (runTicks rands []) = true ∧
    rowsInRange (runTicks rands []) = true ∧
    ((advanceCars (runTicks rands [])).filter
        (fun c => decide (SCREEN_HEIGHT < c.y))).length ≤ 1 ∧
    ∀ c ∈ (retireFront (advanceCars (runTicks rands []))).1,
      c.y ≤ SCREEN_HEIGHT := by
  have h := runTicks_inv rands [] rfl
  have hcr : chain2 (runTicks rands []) = true ∧
      rowsInRange (runTicks rands []) = true := by
    rw [fieldInv, Bool.and_eq_true] at h
    exact h
  have hf := advance_past_bottom_facts _ hcr.1 hcr.2
  exact ⟨hcr.1, hcr.2, hf.1, hf.2⟩

/-- C9 witness: after one tick that spawned an obstacle, the post-removal
field stays within the bottom boundary. -/
theorem reachable_field_spacing_witness :
    (⟨7, 2⟩ : Car).y ≤ SCREEN_HEIGHT :=
  (reachable_field_spacing [(1, 5)]).2.2.2 ⟨7, 2⟩ (by decide)

end CarGame
